import Mathlib

set_option maxHeartbeats 1000000

/-! Shallow embedding of `src/train_app.py`, a pairwise music-similarity
feedback collector: pair enumeration (`generate_pairs`), session state and
submission handling (`handle_submission`), prior-feedback loading
(`load_previous_feedback`), and the JSON export/import round trip. -/

/-- A feedback record, the dict
`{'song_a': ..., 'song_b': ..., 'similarity_score': ...}` built by
`handle_submission` (train_app.py lines 40-44).  Python floats are embedded
as rationals: the program never computes with scores, it only stores them. -/
structure Feedback where
  song_a : String
  song_b : String
  similarity_score : ℚ
  deriving DecidableEq, Repr

/-- The list comprehension of train_app.py lines 17-19:
`[(file_names[i], file_names[j]) for i in range(len(file_names))
for j in range(i + 1, len(file_names))]`.
Python `range(a, b)` is `List.range' a (b - a)`; the in-range subscript
`file_names[i]` is `List.getD` (the default is never read because every
generated index is below the length). -/
def all_pairs (file_names : List String) : List (String × String) :=
  (List.range file_names.length).flatMap fun i =>
    (List.range' (i + 1) (file_names.length - (i + 1))).map fun j =>
      (file_names.getD i "", file_names.getD j "")

/-- train_app.py lines 22-23: the symmetric collection of already-rated
pairs.  The Python `set` is embedded as a list that is only ever used
through membership, which ignores duplication and order. -/
def rated_pairs (existing_feedback : List Feedback) : List (String × String) :=
  existing_feedback.map (fun f => (f.song_a, f.song_b)) ++
    existing_feedback.map (fun f => (f.song_b, f.song_a))

/-- train_app.py lines 16-29 (`generate_pairs`).  The Python default
`existing_feedback=None` and an empty list are both falsy for
`if existing_feedback:`, so the embedding takes a list and tests
non-emptiness. -/
def generate_pairs (file_names : List String)
    (existing_feedback : List Feedback) : List (String × String) :=
  if existing_feedback ≠ [] then
    (all_pairs file_names).filter
      (fun pair => decide ((pair.1, pair.2) ∉ rated_pairs existing_feedback))
  else
    all_pairs file_names

/-- Two feedback records judge the same unordered pair of items. -/
def same_unordered (f g : Feedback) : Prop :=
  (f.song_a = g.song_a ∧ f.song_b = g.song_b) ∨
    (f.song_a = g.song_b ∧ f.song_b = g.song_a)

/-- The pair `p` has been judged, in either orientation, by some record of
`fb`. -/
def judgedBy (fb : List Feedback) (p : String × String) : Prop :=
  ∃ f ∈ fb, (f.song_a = p.1 ∧ f.song_b = p.2) ∨
    (f.song_a = p.2 ∧ f.song_b = p.1)

/-- The Streamlit session keys installed by `initialize_session_state`
(train_app.py lines 6-14) that the core logic reads and writes:
`feedback`, `remaining_pairs`, `current_pair_index` and `audio_files`
(audio payloads are embedded as lists of byte values). -/
structure SessionState where
  feedback : List Feedback
  remaining_pairs : List (String × String)
  current_pair_index : ℕ
  audio_files : List (String × List ℕ)
  deriving DecidableEq, Repr

/-- Python exceptions the embedded operations can raise. -/
inductive PyErr where
  | indexError
  | typeError
  deriving DecidableEq, Repr

/-- train_app.py lines 37-48 (`handle_submission`).
`if st.session_state.remaining_pairs:` is Python truthiness, i.e. a
non-emptiness test; the subscript on line 39 raises `IndexError` when
`current_pair_index` is out of range, before any state is mutated. -/
def handle_submission (s : SessionState) (similarity_score : ℚ) :
    Except PyErr (Bool × SessionState) :=
  if s.remaining_pairs ≠ [] then
    match s.remaining_pairs[s.current_pair_index]? with
    | some current_pair =>
        .ok (true, { s with
          feedback := s.feedback ++
            [{ song_a := current_pair.1, song_b := current_pair.2,
               similarity_score := similarity_score }],
          current_pair_index := s.current_pair_index + 1 })
    | none => .error .indexError
  else
    .ok (false, s)

/-- The session state produced by the item-set (re)activation branch of
`main` (train_app.py lines 101-117) for a fresh session: the loaded prior
feedback becomes `feedback` (when the loaded list is empty, line 108 is
skipped and `feedback` keeps its initial `[]`, which coincides), the queue
produced from `generate_pairs` (after line 115's `random.shuffle`, modelled
by quantifying over permutations of the builder output at the use sites)
becomes `remaining_pairs`, and the cursor is reset to 0. -/
def init_session (prior : List Feedback) (queue : List (String × String))
    (files : List (String × List ℕ)) : SessionState :=
  { feedback := prior
    remaining_pairs := queue
    current_pair_index := 0
    audio_files := files }

/-- States reachable from `s` by any sequence of completed
`handle_submission` calls (any scores); a call that raises leaves no
resulting state behind. -/
inductive Reaches : SessionState → SessionState → Prop
  | refl (s : SessionState) : Reaches s s
  | step {s t u : SessionState} {σ : ℚ} {b : Bool} :
      Reaches s t → handle_submission t σ = .ok (b, u) → Reaches s u

/-- train_app.py lines 160-162 iterated: submit each score in turn,
stopping at the first uncaught exception. -/
def run_submissions : SessionState → List ℚ → Except PyErr SessionState
  | s, [] => .ok s
  | s, score :: rest =>
    match handle_submission s score with
    | .ok (_, s') => run_submissions s' rest
    | .error e => .error e

/-- A parsed JSON value: the result of a successful Python `json.loads`. -/
inductive JValue where
  | null
  | bool (b : Bool)
  | num (q : ℚ)
  | str (s : String)
  | arr (elems : List JValue)
  | obj (fields : List (String × JValue))

/-- Python `element == key` for a string `key`, as used by `in` on a list:
true only when the element is an equal string. -/
def jvalEqStr (v : JValue) (key : String) : Bool :=
  match v with
  | .str s => s == key
  | _ => false

/-- Contiguous-substring test: Python `pat in s` for strings. -/
def strContainsSub (s pat : String) : Bool :=
  s.toList.tails.any (fun t => pat.toList.isPrefixOf t)

/-- Python `key in entry` as used on train_app.py line 60: key lookup when
`entry` is a dict, element equality when it is a list, substring test when
it is a string, and `TypeError` for the remaining JSON values. -/
def pyContains (entry : JValue) (key : String) : Except PyErr Bool :=
  match entry with
  | .obj kvs => .ok (kvs.any (fun kv => kv.1 == key))
  | .arr xs => .ok (xs.any (fun v => jvalEqStr v key))
  | .str s => .ok (strContainsSub s key)
  | _ => .error .typeError

/-- Python `all(key in entry for key in [...])` (train_app.py line 60),
short-circuiting; an uncaught `TypeError` propagates. -/
def allKeysIn (entry : JValue) : List String → Except PyErr Bool
  | [] => .ok true
  | k :: ks => do
    let b ← pyContains entry k
    if b then allKeysIn entry ks else pure false

/-- The validation loop of train_app.py lines 59-62, stopping at the first
entry that fails the key check. -/
def validateEntries : List JValue → Except PyErr Bool
  | [] => .ok true
  | e :: es => do
    let b ← allKeysIn e ["song_a", "song_b", "similarity_score"]
    if b then validateEntries es else pure false

/-- train_app.py lines 50-70 (`load_previous_feedback`), as a function of
the outcome of `json.loads` on the uploaded file (`none` models a
`json.JSONDecodeError`).  Returns the resulting list together with the
message reported through `st.error`, if any; the `TypeError` branch is the
generic `except Exception` handler of lines 68-70. -/
def load_previous_feedback (parsed : Option JValue) :
    List JValue × Option String :=
  match parsed with
  | none => ([], some "Invalid JSON file")
  | some feedback_data =>
    match feedback_data with
    | .arr entries =>
      match validateEntries entries with
      | .error _ => ([], some "Error loading feedback file")
      | .ok false =>
          ([], some "Invalid feedback file format: missing required fields")
      | .ok true => (entries, none)
    | _ =>
        ([], some "Invalid feedback file format: expected a list of ratings")

/-- The JSON object written for one feedback record by `json.dumps`
(train_app.py line 168).  Python's JSON serialization round-trips dicts,
lists, strings and numbers, so dumping followed by `json.loads` is
modelled as the identity at the parsed-value level. -/
def encode_feedback (f : Feedback) : JValue :=
  .obj [("song_a", .str f.song_a), ("song_b", .str f.song_b),
    ("similarity_score", .num f.similarity_score)]

/-- The export of train_app.py lines 167-174: the accumulated feedback
list serialized as a JSON array. -/
def export_feedback (fb : List Feedback) : JValue :=
  .arr (fb.map encode_feedback)

/-- Reading a loaded three-field judgment object back into a record (the
inverse of `encode_feedback`), used to state that re-imported entries
carry exactly the exported data. -/
def decode_feedback (v : JValue) : Option Feedback :=
  match v with
  | .obj [(ka, .str a), (kb, .str b), (ks, .num q)] =>
    if ka = "song_a" ∧ kb = "song_b" ∧ ks = "similarity_score" then
      some { song_a := a, song_b := b, similarity_score := q }
    else none
  | _ => none

lemma all_pairs_nil : all_pairs [] = [] := rfl

lemma map_getD_range {α : Type} (xs : List α) (d : α) :
    (List.range xs.length).map (fun j => xs.getD j d) = xs := by
  induction xs with
  | nil => rfl
  | cons x xs ih =>
    rw [List.length_cons, List.range_succ_eq_map, List.map_cons, List.map_map]
    simp only [Function.comp_def, List.getD_cons_zero, List.getD_cons_succ,
      Nat.succ_eq_add_one]
    rw [ih]

lemma map_getD_range'_shift {α β : Type} (x : α) (xs : List α) (d : α) (A : β) :
    ∀ (c s : ℕ),
      (List.range' (s + 1) c).map (fun j => (A, (x :: xs).getD j d)) =
        (List.range' s c).map (fun j => (A, xs.getD j d)) := by
  intro c
  induction c with
  | zero => intro s; rfl
  | succ c ih =>
    intro s
    simp only [List.range'_succ, List.map_cons, List.getD_cons_succ]
    rw [ih]

lemma flatMap_congr_mem {α β : Type} {f g : α → List β} :
    ∀ {l : List α}, (∀ a ∈ l, f a = g a) → l.flatMap f = l.flatMap g := by
  intro l
  induction l with
  | nil => intro _; rfl
  | cons a l ih =>
    intro h
    rw [List.flatMap_cons, List.flatMap_cons, h a (List.mem_cons_self a l),
      ih fun b hb => h b (List.mem_cons_of_mem a hb)]

/-- Unfolding `all_pairs` one element at a time: the pairs of `x :: xs` are
`x` against every later element, followed by the pairs of `xs`. -/
lemma all_pairs_cons (x : String) (xs : List String) :
    all_pairs (x :: xs) = xs.map (fun y => (x, y)) ++ all_pairs xs := by
  unfold all_pairs
  rw [List.length_cons, List.range_succ_eq_map, List.flatMap_cons,
    List.flatMap_map]
  congr 1
  · simp only [List.getD_cons_zero, Nat.add_sub_cancel]
    rw [show (1 : ℕ) = 0 + 1 from rfl, map_getD_range'_shift x xs "" x,
      ← List.range_eq_range',
      show (fun j => (x, xs.getD j "")) =
        (fun y => (x, y)) ∘ (fun j => xs.getD j "") from rfl,
      ← List.map_map, map_getD_range]
  · apply flatMap_congr_mem
    intro i _
    simp only [Nat.succ_eq_add_one, List.getD_cons_succ, Nat.add_sub_add_right]
    exact map_getD_range'_shift x xs "" (xs.getD i "") _ _

lemma length_all_pairs (l : List String) :
    (all_pairs l).length = l.length.choose 2 := by
  induction l with
  | nil => rfl
  | cons x xs ih =>
    rw [all_pairs_cons, List.length_append, List.length_map, ih,
      List.length_cons]
    rw [Nat.choose_succ_succ, Nat.choose_one_right]

lemma mem_all_pairs_cons {p : String × String} {x : String} {xs : List String} :
    p ∈ all_pairs (x :: xs) ↔ (p.1 = x ∧ p.2 ∈ xs) ∨ p ∈ all_pairs xs := by
  rw [all_pairs_cons, List.mem_append, List.mem_map]
  constructor
  · rintro (⟨y, hy, hxy⟩ | h)
    · exact Or.inl ⟨by rw [← hxy], by rw [← hxy]; exact hy⟩
    · exact Or.inr h
  · rintro (⟨h1, h2⟩ | h)
    · exact Or.inl ⟨p.2, h2, by rw [← h1]⟩
    · exact Or.inr h

lemma mem_of_mem_all_pairs {p : String × String} {l : List String}
    (h : p ∈ all_pairs l) : p.1 ∈ l ∧ p.2 ∈ l := by
  induction l with
  | nil => rw [all_pairs_nil] at h; cases h
  | cons x xs ih =>
    rcases mem_all_pairs_cons.mp h with ⟨h1, h2⟩ | h'
    · exact ⟨by rw [h1]; exact List.mem_cons_self x xs,
        List.mem_cons_of_mem x h2⟩
    · rcases ih h' with ⟨a, b⟩
      exact ⟨List.mem_cons_of_mem x a, List.mem_cons_of_mem x b⟩

lemma nodup_all_pairs {l : List String} (h : l.Nodup) :
    (all_pairs l).Nodup := by
  induction l with
  | nil => rw [all_pairs_nil]; exact List.nodup_nil
  | cons x xs ih =>
    rw [all_pairs_cons]
    rcases List.nodup_cons.mp h with ⟨hx, hxs⟩
    refine List.Nodup.append ?_ (ih hxs) ?_
    · exact hxs.map (fun a b hab => congrArg Prod.snd hab)
    · intro p hp hp'
      rcases List.mem_map.mp hp with ⟨y, _, rfl⟩
      exact hx (mem_of_mem_all_pairs hp').1

lemma swap_not_mem_all_pairs {l : List String} (h : l.Nodup) :
    ∀ a b : String, (a, b) ∈ all_pairs l → (b, a) ∉ all_pairs l := by
  induction l with
  | nil => intro a b hab; rw [all_pairs_nil] at hab; cases hab
  | cons x xs ih =>
    rcases List.nodup_cons.mp h with ⟨hx, hxs⟩
    intro a b hab hba
    rcases mem_all_pairs_cons.mp hab with ⟨h1, h2⟩ | h'
    · rcases mem_all_pairs_cons.mp hba with ⟨g1, g2⟩ | g'
      · exact hx (show x ∈ xs by
          have : b = x := g1
          rw [← this]; exact h2)
      · exact hx (show x ∈ xs by
          have : a = x := h1
          rw [← this]; exact (mem_of_mem_all_pairs g').2)
    · rcases mem_all_pairs_cons.mp hba with ⟨g1, g2⟩ | g'
      · exact hx (show x ∈ xs by
          have : b = x := g1
          rw [← this]; exact (mem_of_mem_all_pairs h').2)
      · exact ih hxs a b h' g'

lemma fst_ne_snd_all_pairs {l : List String} (h : l.Nodup) :
    ∀ p ∈ all_pairs l, p.1 ≠ p.2 := by
  induction l with
  | nil => intro p hp; rw [all_pairs_nil] at hp; cases hp
  | cons x xs ih =>
    rcases List.nodup_cons.mp h with ⟨hx, hxs⟩
    intro p hp
    rcases mem_all_pairs_cons.mp hp with ⟨h1, h2⟩ | h'
    · intro he
      apply hx
      rw [← h1, he]
      exact h2
    · exact ih hxs p h'

lemma mem_all_pairs_of_mem {l : List String} :
    ∀ {a b : String}, a ∈ l → b ∈ l → a ≠ b →
      (a, b) ∈ all_pairs l ∨ (b, a) ∈ all_pairs l := by
  induction l with
  | nil => intro a b ha _ _; cases ha
  | cons x xs ih =>
    intro a b ha hb hne
    rcases List.mem_cons.mp ha with rfl | ha'
    · left
      apply mem_all_pairs_cons.mpr
      refine Or.inl ⟨rfl, ?_⟩
      rcases List.mem_cons.mp hb with rfl | hb'
      · exact absurd rfl hne
      · exact hb'
    · rcases List.mem_cons.mp hb with rfl | hb'
      · right
        exact mem_all_pairs_cons.mpr (Or.inl ⟨rfl, ha'⟩)
      · rcases ih ha' hb' hne with h | h
        · exact Or.inl (mem_all_pairs_cons.mpr (Or.inr h))
        · exact Or.inr (mem_all_pairs_cons.mpr (Or.inr h))

lemma mem_rated_pairs {fb : List Feedback} {p : String × String} :
    p ∈ rated_pairs fb ↔
      ∃ f ∈ fb, (f.song_a, f.song_b) = p ∨ (f.song_b, f.song_a) = p := by
  unfold rated_pairs
  rw [List.mem_append, List.mem_map, List.mem_map]
  constructor
  · rintro (⟨f, hf, he⟩ | ⟨f, hf, he⟩)
    · exact ⟨f, hf, Or.inl he⟩
    · exact ⟨f, hf, Or.inr he⟩
  · rintro ⟨f, hf, he | he⟩
    · exact Or.inl ⟨f, hf, he⟩
    · exact Or.inr ⟨f, hf, he⟩

lemma rated_pairs_cons_mem {f : Feedback} {rest : List Feedback}
    {p : String × String} :
    p ∈ rated_pairs (f :: rest) ↔
      p = (f.song_a, f.song_b) ∨ p = (f.song_b, f.song_a) ∨
        p ∈ rated_pairs rest := by
  constructor
  · intro h
    rcases mem_rated_pairs.mp h with ⟨g, hg, he | he⟩
    · rcases List.mem_cons.mp hg with rfl | hg'
      · exact Or.inl he.symm
      · exact Or.inr (Or.inr (mem_rated_pairs.mpr ⟨g, hg', Or.inl he⟩))
    · rcases List.mem_cons.mp hg with rfl | hg'
      · exact Or.inr (Or.inl he.symm)
      · exact Or.inr (Or.inr (mem_rated_pairs.mpr ⟨g, hg', Or.inr he⟩))
  · rintro (rfl | rfl | h)
    · exact mem_rated_pairs.mpr ⟨f, List.mem_cons_self f rest, Or.inl rfl⟩
    · exact mem_rated_pairs.mpr ⟨f, List.mem_cons_self f rest, Or.inr rfl⟩
    · rcases mem_rated_pairs.mp h with ⟨g, hg, he⟩
      exact mem_rated_pairs.mpr ⟨g, List.mem_cons_of_mem f hg, he⟩

lemma length_filter_remove_two {q₁ q₂ : String × String} :
    ∀ {L : List (String × String)}, L.Nodup → q₁ ∈ L → q₂ ∉ L →
      (L.filter (fun p => decide (p ≠ q₁ ∧ p ≠ q₂))).length + 1 = L.length := by
  intro L
  induction L with
  | nil => intro _ h1 _; cases h1
  | cons a L ih =>
    intro hnd h1 h2
    rcases List.nodup_cons.mp hnd with ⟨ha, hL⟩
    have h2' : q₂ ∉ L := fun hm => h2 (List.mem_cons_of_mem _ hm)
    by_cases hq : a = q₁
    · subst hq
      have hcond : (decide (a ≠ a ∧ a ≠ q₂)) = false := by simp
      rw [List.filter_cons, hcond]
      simp only [Bool.false_eq_true, if_false]
      have hfe : L.filter (fun p => decide (p ≠ a ∧ p ≠ q₂)) = L := by
        apply List.filter_eq_self.mpr
        intro p hp
        simp only [decide_eq_true_eq, ne_eq]
        exact ⟨fun e => ha (e ▸ hp), fun e => h2' (e ▸ hp)⟩
      rw [hfe, List.length_cons]
    · have hq1 : q₁ ∈ L := by
        rcases List.mem_cons.mp h1 with rfl | h
        · exact absurd rfl hq
        · exact h
      have hcond : (decide (a ≠ q₁ ∧ a ≠ q₂)) = true := by
        simp only [decide_eq_true_eq, ne_eq]
        exact ⟨fun e => hq e, fun e => h2 (e ▸ List.mem_cons_self a L)⟩
      rw [List.filter_cons, hcond]
      simp only [if_true]
      rw [List.length_cons, List.length_cons]
      have := ih hL hq1 h2'
      omega

/-- Each prior judgment that hits exactly one orientation of a pair in `L`,
for pairwise-distinct unordered prior pairs, removes exactly one element of
`L`: the filtered list is shorter by exactly the number of prior records. -/
lemma filter_unrated_length :
    ∀ (prior : List Feedback) (L : List (String × String)),
      L.Nodup →
      (∀ p ∈ L, (p.2, p.1) ∉ L) →
      (∀ f ∈ prior, (f.song_a, f.song_b) ∈ L ∨ (f.song_b, f.song_a) ∈ L) →
      List.Pairwise (fun f g => ¬ same_unordered f g) prior →
      (L.filter
          (fun pair => decide ((pair.1, pair.2) ∉ rated_pairs prior))).length
        + prior.length = L.length := by
  intro prior
  induction prior with
  | nil =>
    intro L _ _ _ _
    have hfe : L.filter
        (fun pair => decide ((pair.1, pair.2) ∉ rated_pairs [])) = L := by
      apply List.filter_eq_self.mpr
      intro p hp
      simp [rated_pairs]
    rw [hfe]
    rfl
  | cons f rest ih =>
    intro L hnd hsw hmem hpw
    rcases List.pairwise_cons.mp hpw with ⟨hpf, hpw'⟩
    have hdec : L.filter
        (fun pair => decide ((pair.1, pair.2) ∉ rated_pairs (f :: rest)))
        = (L.filter (fun p =>
            decide (p ≠ (f.song_a, f.song_b) ∧ p ≠ (f.song_b, f.song_a)))).filter
          (fun pair => decide ((pair.1, pair.2) ∉ rated_pairs rest)) := by
      rw [List.filter_filter]
      apply List.filter_congr
      intro p _
      rw [← Bool.decide_and]
      apply decide_eq_decide.mpr
      rw [rated_pairs_cons_mem]
      constructor
      · intro h
        exact ⟨fun hm => h (Or.inr (Or.inr hm)),
          fun e => h (Or.inl e), fun e => h (Or.inr (Or.inl e))⟩
      · rintro ⟨hm, h1, h2⟩ (e | e | e)
        · exact h1 e
        · exact h2 e
        · exact hm e
    have hone : ((f.song_a, f.song_b) ∈ L ∧ (f.song_b, f.song_a) ∉ L) ∨
        ((f.song_b, f.song_a) ∈ L ∧ (f.song_a, f.song_b) ∉ L) := by
      rcases hmem f (List.mem_cons_self f rest) with h | h
      · exact Or.inl ⟨h, hsw (f.song_a, f.song_b) h⟩
      · exact Or.inr ⟨h, hsw (f.song_b, f.song_a) h⟩
    have hlen' : (L.filter (fun p =>
        decide (p ≠ (f.song_a, f.song_b) ∧ p ≠ (f.song_b, f.song_a)))).length
          + 1 = L.length := by
      rcases hone with ⟨h1, h2⟩ | ⟨h1, h2⟩
      · exact length_filter_remove_two hnd h1 h2
      · have hsw2 : L.filter (fun p =>
            decide (p ≠ (f.song_a, f.song_b) ∧ p ≠ (f.song_b, f.song_a)))
            = L.filter (fun p =>
              decide (p ≠ (f.song_b, f.song_a) ∧ p ≠ (f.song_a, f.song_b))) := by
          apply List.filter_congr
          intro p _
          apply decide_eq_decide.mpr
          exact and_comm
        rw [hsw2]
        exact length_filter_remove_two hnd h1 h2
    have hnd' := hnd.filter (fun p =>
      decide (p ≠ (f.song_a, f.song_b) ∧ p ≠ (f.song_b, f.song_a)))
    have hsub : ∀ p, p ∈ L.filter (fun p =>
        decide (p ≠ (f.song_a, f.song_b) ∧ p ≠ (f.song_b, f.song_a))) → p ∈ L :=
      fun p hp => List.mem_of_mem_filter hp
    have hsw' : ∀ p ∈ L.filter (fun p =>
        decide (p ≠ (f.song_a, f.song_b) ∧ p ≠ (f.song_b, f.song_a))),
        (p.2, p.1) ∉ L.filter (fun p =>
          decide (p ≠ (f.song_a, f.song_b) ∧ p ≠ (f.song_b, f.song_a))) :=
      fun p hp hm => hsw p (hsub p hp) (hsub _ hm)
    have hmem' : ∀ g ∈ rest, (g.song_a, g.song_b) ∈ L.filter (fun p =>
        decide (p ≠ (f.song_a, f.song_b) ∧ p ≠ (f.song_b, f.song_a))) ∨
        (g.song_b, g.song_a) ∈ L.filter (fun p =>
          decide (p ≠ (f.song_a, f.song_b) ∧ p ≠ (f.song_b, f.song_a))) := by
      intro g hg
      have hnsame := hpf g hg
      rcases hmem g (List.mem_cons_of_mem f hg) with h | h
      · left
        apply List.mem_filter.mpr
        refine ⟨h, ?_⟩
        simp only [decide_eq_true_eq, ne_eq, Prod.mk.injEq, not_and]
        constructor
        · intro e1 e2
          exact hnsame (Or.inl ⟨e1.symm, e2.symm⟩)
        · intro e1 e2
          exact hnsame (Or.inr ⟨e2.symm, e1.symm⟩)
      · right
        apply List.mem_filter.mpr
        refine ⟨h, ?_⟩
        simp only [decide_eq_true_eq, ne_eq, Prod.mk.injEq, not_and]
        constructor
        · intro e1 e2
          exact hnsame (Or.inr ⟨e1.symm, e2.symm⟩)
        · intro e1 e2
          exact hnsame (Or.inl ⟨e2.symm, e1.symm⟩)
    have hih := ih (L.filter (fun p =>
      decide (p ≠ (f.song_a, f.song_b) ∧ p ≠ (f.song_b, f.song_a))))
      hnd' hsw' hmem' hpw'
    rw [hdec, List.length_cons]
    omega

/-- When every prior record relates two distinct items of the item list and
no unordered pair is judged twice, rebuilding removes exactly one
enumerated pair per prior record. -/
lemma generate_pairs_length (fns : List String) (prior : List Feedback)
    (hnd : fns.Nodup)
    (hvalid : ∀ f ∈ prior,
      f.song_a ∈ fns ∧ f.song_b ∈ fns ∧ f.song_a ≠ f.song_b)
    (hpw : List.Pairwise (fun f g => ¬ same_unordered f g) prior) :
    (generate_pairs fns prior).length + prior.length
      = (all_pairs fns).length := by
  by_cases hp : prior = []
  · subst hp
    simp [generate_pairs]
  · rw [generate_pairs, if_pos hp]
    apply filter_unrated_length prior (all_pairs fns) (nodup_all_pairs hnd)
      ?_ ?_ hpw
    · intro p hp'
      exact swap_not_mem_all_pairs hnd p.1 p.2 hp'
    · intro f hf
      rcases hvalid f hf with ⟨ha, hb, hne⟩
      exact mem_all_pairs_of_mem ha hb hne

/-- The queue built by `generate_pairs` holds exactly the enumerated pairs
not judged (in either orientation) by the supplied feedback. -/
lemma mem_generate_pairs {fns : List String} {fb : List Feedback}
    {p : String × String} :
    p ∈ generate_pairs fns fb ↔ p ∈ all_pairs fns ∧ ¬ judgedBy fb p := by
  by_cases hfb : fb = []
  · subst hfb
    rw [generate_pairs]
    simp [judgedBy]
  · rw [generate_pairs, if_pos hfb, List.mem_filter]
    simp only [decide_eq_true_eq]
    have hiff : (p.1, p.2) ∈ rated_pairs fb ↔ judgedBy fb p := by
      rw [mem_rated_pairs]
      unfold judgedBy
      constructor
      · rintro ⟨f, hf, he | he⟩
        · rw [Prod.mk.injEq] at he
          exact ⟨f, hf, Or.inl he⟩
        · rw [Prod.mk.injEq] at he
          exact ⟨f, hf, Or.inr ⟨he.2, he.1⟩⟩
      · rintro ⟨f, hf, he | he⟩
        · exact ⟨f, hf, Or.inl (Prod.mk.injEq .. |>.mpr he)⟩
        · exact ⟨f, hf, Or.inr (Prod.mk.injEq .. |>.mpr ⟨he.2, he.1⟩)⟩
    rw [hiff]

/-- The queue is empty precisely when every enumerated pair is already
judged by the supplied feedback. -/
lemma generate_pairs_eq_nil_iff {fns : List String} {fb : List Feedback} :
    generate_pairs fns fb = [] ↔ ∀ p ∈ all_pairs fns, judgedBy fb p := by
  rw [List.eq_nil_iff_forall_not_mem]
  constructor
  · intro h p hp
    by_contra hj
    exact h p (mem_generate_pairs.mpr ⟨hp, hj⟩)
  · intro h p hp
    rcases mem_generate_pairs.mp hp with ⟨hmem, hj⟩
    exact hj (h p hmem)

/-- A submission against an active session (cursor in range) appends one
feedback record for the current pair with the submitted score, advances
the cursor by one, and changes nothing else. -/
lemma handle_submission_active (s : SessionState) (σ : ℚ)
    (h : s.current_pair_index < s.remaining_pairs.length) :
    handle_submission s σ = .ok (true, { s with
      feedback := s.feedback ++
        [{ song_a := (s.remaining_pairs.get ⟨s.current_pair_index, h⟩).1,
           song_b := (s.remaining_pairs.get ⟨s.current_pair_index, h⟩).2,
           similarity_score := σ }],
      current_pair_index := s.current_pair_index + 1 }) := by
  have hne : s.remaining_pairs ≠ [] :=
    List.ne_nil_of_length_pos (Nat.lt_of_le_of_lt (Nat.zero_le _) h)
  rw [handle_submission, if_pos hne, List.getElem?_eq_getElem h]
  rfl

/-- One completed `handle_submission` call preserves the bookkeeping
equation `|feedback| + |remaining_pairs| = K + cursor` together with
`cursor ≤ |remaining_pairs|`. -/
lemma handle_submission_preserves {t u : SessionState} {σ : ℚ} {b : Bool}
    {K : ℕ} (hstep : handle_submission t σ = .ok (b, u))
    (h1 : t.current_pair_index ≤ t.remaining_pairs.length)
    (h2 : t.feedback.length + t.remaining_pairs.length
      = K + t.current_pair_index) :
    u.current_pair_index ≤ u.remaining_pairs.length ∧
      u.feedback.length + u.remaining_pairs.length
        = K + u.current_pair_index := by
  by_cases hne : t.remaining_pairs ≠ []
  · rw [handle_submission, if_pos hne] at hstep
    cases hget : t.remaining_pairs[t.current_pair_index]? with
    | some p =>
        rw [hget] at hstep
        have hidx : t.current_pair_index < t.remaining_pairs.length := by
          rcases List.getElem?_eq_some.mp hget with ⟨hlt, _⟩
          exact hlt
        have hu : u = { t with
            feedback := t.feedback ++
              [{ song_a := p.1, song_b := p.2, similarity_score := σ }],
            current_pair_index := t.current_pair_index + 1 } := by
          cases hstep
          rfl
        subst hu
        constructor
        · exact hidx
        · simp only [List.length_append, List.length_cons, List.length_nil]
          omega
    | none =>
        rw [hget] at hstep
        cases hstep
  · rw [handle_submission, if_neg hne] at hstep
    have hu : u = t := by
      cases hstep
      rfl
    subst hu
    exact ⟨h1, h2⟩

/-- The bookkeeping equation is an invariant of every reachable state. -/
lemma reaches_invariant {s t : SessionState} {K : ℕ} (hr : Reaches s t)
    (h1 : s.current_pair_index ≤ s.remaining_pairs.length)
    (h2 : s.feedback.length + s.remaining_pairs.length
      = K + s.current_pair_index) :
    t.current_pair_index ≤ t.remaining_pairs.length ∧
      t.feedback.length + t.remaining_pairs.length
        = K + t.current_pair_index := by
  induction hr with
  | refl => exact ⟨h1, h2⟩
  | step _ hstep ih =>
      exact handle_submission_preserves hstep ih.1 ih.2

lemma run_submissions_cons_ok {s s' : SessionState} {σ : ℚ} {b : Bool}
    {rest : List ℚ} (h : handle_submission s σ = .ok (b, s')) :
    run_submissions s (σ :: rest) = run_submissions s' rest := by
  rw [run_submissions, h]

/-- Submitting `scores.length` ratings from cursor `i`, all in range,
appends one feedback record per consumed queue entry (in queue order, with
the matching submitted score) and moves the cursor past them. -/
lemma run_submissions_spec (Q : List (String × String))
    (files : List (String × List ℕ)) :
    ∀ (scores : List ℚ) (fb : List Feedback) (i : ℕ),
      i + scores.length ≤ Q.length →
      run_submissions ⟨fb, Q, i, files⟩ scores =
        .ok ⟨fb ++ (((Q.drop i).take scores.length).zip scores).map
              (fun x => ⟨x.1.1, x.1.2, x.2⟩),
            Q, i + scores.length, files⟩ := by
  intro scores
  induction scores with
  | nil =>
    intro fb i h
    simp [run_submissions]
  | cons σ rest ih =>
    intro fb i h
    have hidx : i < Q.length := by
      simp only [List.length_cons] at h
      omega
    rw [run_submissions_cons_ok
      (handle_submission_active ⟨fb, Q, i, files⟩ σ hidx)]
    show run_submissions
      ⟨fb ++ [⟨(Q.get ⟨i, hidx⟩).1, (Q.get ⟨i, hidx⟩).2, σ⟩], Q, i + 1, files⟩
      rest = _
    rw [ih _ (i + 1) (by simp only [List.length_cons] at h; omega)]
    rw [← List.getElem_cons_drop Q i hidx]
    simp only [List.length_cons, List.take_succ_cons, List.zip_cons_cons,
      List.map_cons, List.append_nil, Except.ok.injEq, SessionState.mk.injEq,
      List.get_eq_getElem]
    refine ⟨?_, trivial, ?_, trivial⟩
    · simp
    · omega

lemma allKeysIn_encode (f : Feedback) :
    allKeysIn (encode_feedback f) ["song_a", "song_b", "similarity_score"]
      = .ok true := rfl

lemma validateEntries_export (fb : List Feedback) :
    validateEntries (fb.map encode_feedback) = .ok true := by
  induction fb with
  | nil => rfl
  | cons f fb ih =>
    rw [List.map_cons, validateEntries, allKeysIn_encode]
    exact ih

lemma load_export (fb : List Feedback) :
    load_previous_feedback (some (export_feedback fb))
      = (fb.map encode_feedback, none) := by
  unfold export_feedback
  rw [load_previous_feedback, validateEntries_export]

lemma decode_encode (f : Feedback) :
    decode_feedback (encode_feedback f) = some f := rfl

/-- C1: for every item set of N ≥ 2 distinct identifiers and an empty
prior-judgment list, the pair builder returns exactly N*(N-1)/2 pairs, no
pair appears twice (in either orientation), and no pair has two equal
elements. -/
theorem C1_pair_builder_complete (file_names : List String)
    (hnd : file_names.Nodup) (hN : 2 ≤ file_names.length) :
    (generate_pairs file_names []).length
        = file_names.length * (file_names.length - 1) / 2 ∧
      (generate_pairs file_names []).Nodup ∧
      (∀ a b : String, (a, b) ∈ generate_pairs file_names [] →
        (b, a) ∉ generate_pairs file_names []) ∧
      (∀ p ∈ generate_pairs file_names [], p.1 ≠ p.2) := by
  have hgen : generate_pairs file_names [] = all_pairs file_names := rfl
  rw [hgen]
  exact ⟨by rw [length_all_pairs, Nat.choose_two_right],
    nodup_all_pairs hnd, swap_not_mem_all_pairs hnd, fst_ne_snd_all_pairs hnd⟩

theorem C1_pair_builder_complete_witness :
    (["a", "b", "c"] : List String).Nodup ∧
      2 ≤ (["a", "b", "c"] : List String).length ∧
      ((generate_pairs ["a", "b", "c"] []).length
          = (["a", "b", "c"] : List String).length
            * ((["a", "b", "c"] : List String).length - 1) / 2 ∧
        (generate_pairs ["a", "b", "c"] []).Nodup ∧
        (∀ a b : String, (a, b) ∈ generate_pairs ["a", "b", "c"] [] →
          (b, a) ∉ generate_pairs ["a", "b", "c"] []) ∧
        (∀ p ∈ generate_pairs ["a", "b", "c"] [], p.1 ≠ p.2)) :=
  ⟨by decide, by decide,
    C1_pair_builder_complete ["a", "b", "c"] (by decide) (by decide)⟩

/-- C2: every pair judged by some record of the prior-judgment list is
absent from the builder output in both orientations. -/
theorem C2_prior_excluded (file_names : List String) (prior : List Feedback)
    (f : Feedback) (hf : f ∈ prior) :
    (f.song_a, f.song_b) ∉ generate_pairs file_names prior ∧
      (f.song_b, f.song_a) ∉ generate_pairs file_names prior := by
  have hne : prior ≠ [] := List.ne_nil_of_mem hf
  rw [generate_pairs, if_pos hne]
  constructor
  · intro hmem
    have hdec := (List.mem_filter.mp hmem).2
    rw [decide_eq_true_eq] at hdec
    exact hdec (mem_rated_pairs.mpr ⟨f, hf, Or.inl rfl⟩)
  · intro hmem
    have hdec := (List.mem_filter.mp hmem).2
    rw [decide_eq_true_eq] at hdec
    exact hdec (mem_rated_pairs.mpr ⟨f, hf, Or.inr rfl⟩)

theorem C2_prior_excluded_witness :
    (⟨"a", "b", (1:ℚ)/2⟩ : Feedback) ∈ [(⟨"a", "b", (1:ℚ)/2⟩ : Feedback)] ∧
      (("a", "b") ∉ generate_pairs ["a", "b", "c"] [⟨"a", "b", (1:ℚ)/2⟩] ∧
        ("b", "a") ∉ generate_pairs ["a", "b", "c"] [⟨"a", "b", (1:ℚ)/2⟩]) :=
  ⟨List.mem_cons_self _ _,
    C2_prior_excluded ["a", "b", "c"] [⟨"a", "b", (1:ℚ)/2⟩]
      ⟨"a", "b", (1:ℚ)/2⟩ (List.mem_cons_self _ _)⟩

/-- C9: appending a duplicate of a prior judgment that is already present
leaves the builder output unchanged. -/
theorem C9_exclusion_idempotent (file_names : List String)
    (prior : List Feedback) (j : Feedback) (hj : j ∈ prior) :
    generate_pairs file_names (prior ++ [j])
      = generate_pairs file_names prior := by
  have hne : prior ≠ [] := List.ne_nil_of_mem hj
  have hne' : prior ++ [j] ≠ [] := by simp
  rw [generate_pairs, generate_pairs, if_pos hne, if_pos hne']
  apply List.filter_congr
  intro p _
  apply decide_eq_decide.mpr
  apply not_congr
  constructor
  · intro h
    rcases mem_rated_pairs.mp h with ⟨g, hg, he⟩
    rcases List.mem_append.mp hg with hg' | hg'
    · exact mem_rated_pairs.mpr ⟨g, hg', he⟩
    · have hgj : g = j := by simpa using hg'
      exact mem_rated_pairs.mpr ⟨g, hgj ▸ hj, he⟩
  · intro h
    rcases mem_rated_pairs.mp h with ⟨g, hg, he⟩
    exact mem_rated_pairs.mpr ⟨g, List.mem_append_left _ hg, he⟩

theorem C9_exclusion_idempotent_witness :
    (⟨"a", "b", (1:ℚ)/2⟩ : Feedback) ∈ [(⟨"a", "b", (1:ℚ)/2⟩ : Feedback)] ∧
      generate_pairs ["a", "b", "c"]
          ([⟨"a", "b", (1:ℚ)/2⟩] ++ [⟨"a", "b", (1:ℚ)/2⟩])
        = generate_pairs ["a", "b", "c"] [⟨"a", "b", (1:ℚ)/2⟩] :=
  ⟨List.mem_cons_self _ _,
    C9_exclusion_idempotent ["a", "b", "c"] [⟨"a", "b", (1:ℚ)/2⟩]
      ⟨"a", "b", (1:ℚ)/2⟩ (List.mem_cons_self _ _)⟩

/-- C10: whenever a submission succeeds (the cursor addresses a queue
entry), `handle_submission` appends exactly one feedback record carrying
the current pair in its stored orientation and the submitted score,
increments the cursor by one, and leaves the queue and the stored audio
file map unchanged. -/
theorem C10_submission_frame (s : SessionState) (σ : ℚ)
    (h : s.current_pair_index < s.remaining_pairs.length) :
    handle_submission s σ = .ok (true,
      { feedback := s.feedback ++
          [{ song_a := (s.remaining_pairs.get ⟨s.current_pair_index, h⟩).1,
             song_b := (s.remaining_pairs.get ⟨s.current_pair_index, h⟩).2,
             similarity_score := σ }],
        remaining_pairs := s.remaining_pairs,
        current_pair_index := s.current_pair_index + 1,
        audio_files := s.audio_files }) :=
  handle_submission_active s σ h

theorem C10_submission_frame_witness :
    0 < ([("a", "b")] : List (String × String)).length ∧
      handle_submission ⟨[], [("a", "b")], 0, []⟩ ((1:ℚ)/2)
        = .ok (true, ⟨[⟨"a", "b", (1:ℚ)/2⟩], [("a", "b")], 1, []⟩) :=
  ⟨by decide, C10_submission_frame ⟨[], [("a", "b")], 0, []⟩ ((1:ℚ)/2)
    (by decide)⟩

/-- C5 counterexample: in an Active session, a submission with the
out-of-range score 2 is not rejected: it succeeds, appends a judgment
carrying score 2, and advances the cursor. -/
theorem C5_score_range_counterexample :
    (1:ℚ) < 2 ∧
      handle_submission ⟨[], [("a", "b")], 0, []⟩ 2
        = .ok (true, ⟨[⟨"a", "b", 2⟩], [("a", "b")], 1, []⟩) :=
  ⟨by norm_num, rfl⟩

/-- C5 amended: `handle_submission` performs no score validation; in an
Active session a submission with a score outside [0, 1] behaves exactly
like any other submission: it appends the judgment with that score and
increments the cursor (range enforcement lives only in the UI slider). -/
theorem C5_score_range_amended (s : SessionState) (σ : ℚ)
    (h : s.current_pair_index < s.remaining_pairs.length)
    (hout : σ < 0 ∨ 1 < σ) :
    handle_submission s σ = .ok (true,
      { feedback := s.feedback ++
          [{ song_a := (s.remaining_pairs.get ⟨s.current_pair_index, h⟩).1,
             song_b := (s.remaining_pairs.get ⟨s.current_pair_index, h⟩).2,
             similarity_score := σ }],
        remaining_pairs := s.remaining_pairs,
        current_pair_index := s.current_pair_index + 1,
        audio_files := s.audio_files }) :=
  handle_submission_active s σ h

theorem C5_score_range_amended_witness :
    0 < ([("a", "b")] : List (String × String)).length ∧
      ((2:ℚ) < 0 ∨ (1:ℚ) < 2) ∧
      handle_submission ⟨[], [("a", "b")], 0, []⟩ 2
        = .ok (true, ⟨[⟨"a", "b", 2⟩], [("a", "b")], 1, []⟩) :=
  ⟨by decide, Or.inr (by norm_num),
    C5_score_range_amended ⟨[], [("a", "b")], 0, []⟩ 2 (by decide)
      (Or.inr (by norm_num))⟩

/-- C6: in the Empty state (no queue) `handle_submission` does return a
failure value and leaves the state unchanged, but in the Complete state
(non-empty queue fully consumed, cursor = length) the subscript
`remaining_pairs[current_pair_index]` raises an uncaught `IndexError`
instead of signalling: the guard on line 38 tests emptiness, not cursor
range, so the claimed no-crash behaviour fails on the code. -/
theorem C6_submit_outside_active :
    handle_submission ⟨[], [], 0, []⟩ ((1:ℚ)/2)
        = .ok (false, ⟨[], [], 0, []⟩) ∧
      handle_submission ⟨[⟨"a", "b", (1:ℚ)/2⟩], [("a", "b")], 1, []⟩
          ((1:ℚ)/2)
        = .error .indexError :=
  ⟨rfl, rfl⟩

/-- C3 counterexample: with item set ["a", "b"] (so N*(N-1)/2 = 1) and a
loaded prior judgment relating two identifiers outside the item set, the
freshly initialized session (a reachable state) already violates the
claimed invariant: the judgment list has one entry while the full queue of
one pair is rebuilt, so the accounted total is 2, not 1. -/
theorem C3_invariant_counterexample :
    Reaches
        (init_session [⟨"x", "y", (1:ℚ)/2⟩]
          (generate_pairs ["a", "b"] [⟨"x", "y", (1:ℚ)/2⟩]) [])
        (init_session [⟨"x", "y", (1:ℚ)/2⟩]
          (generate_pairs ["a", "b"] [⟨"x", "y", (1:ℚ)/2⟩]) []) ∧
      (init_session [⟨"x", "y", (1:ℚ)/2⟩]
          (generate_pairs ["a", "b"] [⟨"x", "y", (1:ℚ)/2⟩]) []).feedback.length
          + (init_session [⟨"x", "y", (1:ℚ)/2⟩]
              (generate_pairs ["a", "b"]
                [⟨"x", "y", (1:ℚ)/2⟩]) []).remaining_pairs.length
          - (init_session [⟨"x", "y", (1:ℚ)/2⟩]
              (generate_pairs ["a", "b"]
                [⟨"x", "y", (1:ℚ)/2⟩]) []).current_pair_index
        ≠ (["a", "b"] : List String).length
            * ((["a", "b"] : List String).length - 1) / 2 :=
  ⟨Reaches.refl _, by decide⟩

/-- C3 amended: when every loaded prior judgment relates two distinct
identifiers of the item set and no unordered pair is judged twice in the
prior list, every state reachable from initialization (queue = a shuffle
of the builder output, judgments = the loaded priors, cursor 0, followed
by any sequence of completed submissions) satisfies
len(judgments) + len(work_queue) - cursor = N*(N-1)/2. -/
theorem C3_invariant_amended (fns : List String) (prior : List Feedback)
    (queue : List (String × String)) (files : List (String × List ℕ))
    (s : SessionState) (hnd : fns.Nodup)
    (hvalid : ∀ f ∈ prior,
      f.song_a ∈ fns ∧ f.song_b ∈ fns ∧ f.song_a ≠ f.song_b)
    (hpw : List.Pairwise (fun f g => ¬ same_unordered f g) prior)
    (hq : queue.Perm (generate_pairs fns prior))
    (hr : Reaches (init_session prior queue files) s) :
    s.feedback.length + s.remaining_pairs.length - s.current_pair_index
      = fns.length * (fns.length - 1) / 2 := by
  have hK := generate_pairs_length fns prior hnd hvalid hpw
  have hinit : (init_session prior queue files).feedback.length
      + (init_session prior queue files).remaining_pairs.length
      = (all_pairs fns).length
        + (init_session prior queue files).current_pair_index := by
    show prior.length + queue.length = (all_pairs fns).length + 0
    rw [hq.length_eq]
    omega
  have hinv := reaches_invariant hr (Nat.zero_le _) hinit
  rw [length_all_pairs, Nat.choose_two_right] at hinv
  omega

theorem C3_invariant_amended_witness :
    (["a", "b", "c"] : List String).Nodup ∧
      (∀ f ∈ [(⟨"a", "b", (1:ℚ)/2⟩ : Feedback)],
        f.song_a ∈ ["a", "b", "c"] ∧ f.song_b ∈ ["a", "b", "c"] ∧
          f.song_a ≠ f.song_b) ∧
      List.Pairwise (fun f g => ¬ same_unordered f g)
        [(⟨"a", "b", (1:ℚ)/2⟩ : Feedback)] ∧
      (generate_pairs ["a", "b", "c"] [⟨"a", "b", (1:ℚ)/2⟩]).Perm
        (generate_pairs ["a", "b", "c"] [⟨"a", "b", (1:ℚ)/2⟩]) ∧
      Reaches
        (init_session [⟨"a", "b", (1:ℚ)/2⟩]
          (generate_pairs ["a", "b", "c"] [⟨"a", "b", (1:ℚ)/2⟩]) [])
        (init_session [⟨"a", "b", (1:ℚ)/2⟩]
          (generate_pairs ["a", "b", "c"] [⟨"a", "b", (1:ℚ)/2⟩]) []) ∧
      (init_session [⟨"a", "b", (1:ℚ)/2⟩]
            (generate_pairs ["a", "b", "c"]
              [⟨"a", "b", (1:ℚ)/2⟩]) []).feedback.length
          + (init_session [⟨"a", "b", (1:ℚ)/2⟩]
              (generate_pairs ["a", "b", "c"]
                [⟨"a", "b", (1:ℚ)/2⟩]) []).remaining_pairs.length
          - (init_session [⟨"a", "b", (1:ℚ)/2⟩]
              (generate_pairs ["a", "b", "c"]
                [⟨"a", "b", (1:ℚ)/2⟩]) []).current_pair_index
        = (["a", "b", "c"] : List String).length
            * ((["a", "b", "c"] : List String).length - 1) / 2 :=
  ⟨by decide, by decide, List.pairwise_singleton _ _, List.Perm.refl _,
    Reaches.refl _,
    C3_invariant_amended ["a", "b", "c"] [⟨"a", "b", (1:ℚ)/2⟩]
      (generate_pairs ["a", "b", "c"] [⟨"a", "b", (1:ℚ)/2⟩]) []
      (init_session [⟨"a", "b", (1:ℚ)/2⟩]
        (generate_pairs ["a", "b", "c"] [⟨"a", "b", (1:ℚ)/2⟩]) [])
      (by decide) (by decide) (List.pairwise_singleton _ _)
      (List.Perm.refl _) (Reaches.refl _)⟩

/-- C4 counterexample: for a queue that contains the same pair twice,
after exactly len(queue) submissions the cursor equals the queue length
but the pair occurs twice among the appended judgments, refuting the
no-duplicate part of the claim for arbitrary queues. -/
theorem C4_exactly_once_counterexample :
    run_submissions ⟨[], [("a", "b"), ("a", "b")], 0, []⟩ [(0:ℚ), 1]
        = .ok ⟨[⟨"a", "b", 0⟩, ⟨"a", "b", 1⟩],
            [("a", "b"), ("a", "b")], 2, []⟩ ∧
      ("a", "b") ∈ [("a", "b"), ("a", "b")] ∧
      List.countP (fun f => decide (f.song_a = "a" ∧ f.song_b = "b"))
        [(⟨"a", "b", 0⟩ : Feedback), ⟨"a", "b", 1⟩] = 2 :=
  ⟨rfl, by decide, by decide⟩

/-- C4 amended: for every queue with no duplicate pair in either
orientation, starting at cursor 0 with any accumulated judgment list and
submitting exactly len(queue) scores, the run completes: the cursor equals
the queue length, the judgment list grows by exactly one record per queue
entry (the queue pairs in order, with the submitted scores), and no
unordered pair occurs twice among the appended judgments. -/
theorem C4_exactly_once_amended (queue : List (String × String))
    (scores : List ℚ) (fb0 : List Feedback)
    (files : List (String × List ℕ))
    (hlen : scores.length = queue.length)
    (hnd : List.Pairwise (fun p q : String × String =>
      ¬ ((p.1 = q.1 ∧ p.2 = q.2) ∨ (p.1 = q.2 ∧ p.2 = q.1))) queue) :
    run_submissions ⟨fb0, queue, 0, files⟩ scores
        = .ok ⟨fb0 ++ (queue.zip scores).map
            (fun x => ⟨x.1.1, x.1.2, x.2⟩), queue, queue.length, files⟩ ∧
      ((queue.zip scores).map
        (fun x => (⟨x.1.1, x.1.2, x.2⟩ : Feedback))).length
          = queue.length ∧
      List.Pairwise (fun f g => ¬ same_unordered f g)
        ((queue.zip scores).map (fun x => ⟨x.1.1, x.1.2, x.2⟩)) := by
  have hrun := run_submissions_spec queue files scores fb0 0 (by omega)
  rw [List.drop_zero, hlen, List.take_length, Nat.zero_add] at hrun
  refine ⟨hrun, ?_, ?_⟩
  · rw [List.length_map, List.length_zip, hlen, min_self]
  · have hfst : (queue.zip scores).map Prod.fst = queue :=
      List.map_fst_zip _ _ (le_of_eq hlen.symm)
    rw [← hfst, List.pairwise_map] at hnd
    rw [List.pairwise_map]
    exact List.Pairwise.imp (fun h => h) hnd

theorem C4_exactly_once_amended_witness :
    ([(0:ℚ), 1] : List ℚ).length
        = ([("a", "b"), ("a", "c")] : List (String × String)).length ∧
      List.Pairwise (fun p q : String × String =>
        ¬ ((p.1 = q.1 ∧ p.2 = q.2) ∨ (p.1 = q.2 ∧ p.2 = q.1)))
        [("a", "b"), ("a", "c")] ∧
      (run_submissions ⟨[], [("a", "b"), ("a", "c")], 0, []⟩ [(0:ℚ), 1]
          = .ok ⟨[] ++ ([("a", "b"), ("a", "c")].zip [(0:ℚ), 1]).map
              (fun x => ⟨x.1.1, x.1.2, x.2⟩),
              [("a", "b"), ("a", "c")],
              ([("a", "b"), ("a", "c")] : List (String × String)).length,
              []⟩ ∧
        (([("a", "b"), ("a", "c")].zip [(0:ℚ), 1]).map
          (fun x => (⟨x.1.1, x.1.2, x.2⟩ : Feedback))).length
            = ([("a", "b"), ("a", "c")] : List (String × String)).length ∧
        List.Pairwise (fun f g => ¬ same_unordered f g)
          (([("a", "b"), ("a", "c")].zip [(0:ℚ), 1]).map
            (fun x => ⟨x.1.1, x.1.2, x.2⟩))) :=
  ⟨by decide, by decide,
    C4_exactly_once_amended [("a", "b"), ("a", "c")] [(0:ℚ), 1] [] []
      (by decide) (by decide)⟩

/-- C7: the three advertised malformed cases are indeed reported with an
empty result (first three conjuncts: unparseable input, non-array root,
an object element missing a required field), but the validation of
train_app.py line 60 tests Python membership rather than dict fields, so
a non-object element such as the array ["song_a", "song_b",
"similarity_score"] — which has no fields at all — passes the check and
the loader returns it (last conjunct), contradicting the claim that any
element missing the required fields yields the empty list. -/
theorem C7_validation_bypass :
    load_previous_feedback none = ([], some "Invalid JSON file") ∧
      load_previous_feedback (some (.str "x"))
        = ([], some "Invalid feedback file format: expected a list of ratings") ∧
      load_previous_feedback (some (.arr [.obj [("song_a", .str "a")]]))
        = ([], some "Invalid feedback file format: missing required fields") ∧
      load_previous_feedback
          (some (.arr [.arr [.str "song_a", .str "song_b",
            .str "similarity_score"]]))
        = ([.arr [.str "song_a", .str "song_b", .str "similarity_score"]],
            none) :=
  ⟨rfl, rfl, rfl, rfl⟩

/-- C8: re-importing the JSON export of a judgment list loads exactly the
exported records (no error, no truncation, data preserved), and rebuilding
against the same item set yields precisely the not-yet-judged pairs; in
particular the queue is empty exactly when every enumerated pair is
judged. -/
theorem C8_round_trip (fns : List String) (fb : List Feedback) :
    load_previous_feedback (some (export_feedback fb))
        = (fb.map encode_feedback, none) ∧
      (fb.map encode_feedback).map decode_feedback = fb.map some ∧
      (∀ p, p ∈ generate_pairs fns fb ↔
        p ∈ all_pairs fns ∧ ¬ judgedBy fb p) ∧
      (generate_pairs fns fb = [] ↔ ∀ p ∈ all_pairs fns, judgedBy fb p) := by
  refine ⟨load_export fb, ?_, fun p => mem_generate_pairs,
    generate_pairs_eq_nil_iff⟩
  rw [List.map_map]
  apply List.map_congr_left
  intro f _
  exact decode_encode f
